import Mathlib

/-!
Verification of the ai_notes note indexing and retrieval pipeline.

This file shallowly embeds the core of the repository:
  * `modules/note_crud.py`  (add_note / edit_note / delete_note),
  * `modules/search_engine.py` (FAISS-backed vector index operations),
  * `modules/gemini_client.py` (retrieval aggregation, Q&A caching),
  * `agent_runner.py` (trigger evaluation and action dispatch).

Modelling conventions:
  * The MongoDB `notes` collection is an association list `List (Int × Note)`
    in storage order; `insert_one` appends, `update_one` / `delete_one`
    affect the first matching document, and `update_one`'s `modified_count`
    counts documents actually changed (a `$set` writing the stored values
    reports 0 modified even when the filter matched, as MongoDB does).
  * The `counters` collection is the single `note_id` counter value;
    `find_one_and_update` with `$inc` and `return_document=True` returns the
    incremented value.
  * The FAISS `IndexIDMap2` is a list of `(id, vector)` entries in insertion
    order. Embeddings are kept abstract: every operation is parametric in the
    Embedding Provider `encode : String → V` and, for search, in the distance
    `dist : V → V → Nat` used as the comparison key of the L2 metric.
    `add_with_ids` appends; `remove_ids` drops every entry with the id;
    `search` returns exactly `k` labels, the nearest first, ties broken by
    insertion order, padded with the sentinel `-1` when the index holds fewer
    than `k` vectors.
  * External fallible calls (speech transcription, Gemini generation, file
    writes performed by agent actions) are passed in as `Except` outcomes, so
    theorems quantify over both success and failure of each collaborator.
-/

/-- A document of the `notes` collection (minus `_id`, which is the key of the
association list). -/
structure Note where
  title : String
  content : String
  tags : List String
  workspace : String
  created_at : Nat
  updated_at : Nat
deriving DecidableEq, Repr

/-- The document store: the `notes` collection in storage order plus the
current value of the `note_id` counter. -/
structure DB where
  notes : List (Int × Note)
  counterSeq : Int
deriving DecidableEq, Repr

/-- Per-process state seen by `note_crud`: the database and the FAISS index
(`(id, vector)` entries in insertion order). -/
structure AppState (V : Type) where
  db : DB
  index : List (Int × V)
deriving DecidableEq, Repr

/-- The fields a `$set` update document may carry (the fields the CLI and the
agent actions ever set). `none` means the field is absent from the update. -/
structure NoteUpdates where
  title : Option String := none
  content : Option String := none
  tags : Option (List String) := none
  workspace : Option String := none
  updated_at : Option Nat := none
deriving DecidableEq, Repr

/-- Applying a `$set` document to a note. -/
def applySet (n : Note) (u : NoteUpdates) : Note :=
  { n with
    title := u.title.getD n.title
    content := u.content.getD n.content
    tags := u.tags.getD n.tags
    workspace := u.workspace.getD n.workspace
    updated_at := u.updated_at.getD n.updated_at }

/-- Model of `db.get_next_note_id`: atomically increment the `note_id` counter and
return the incremented value. -/
def get_next_note_id (db : DB) : Int × DB :=
  (db.counterSeq + 1, { db with counterSeq := db.counterSeq + 1 })

/-- Model of `update_one({"_id": id}, {"$set": u})`: rewrite the first matching
document; the returned count is `modified_count`, which is 0 when no document
matched or when the `$set` wrote the values already stored. -/
def update_one (notes : List (Int × Note)) (id : Int) (u : NoteUpdates) :
    List (Int × Note) × Nat :=
  match notes with
  | [] => ([], 0)
  | p :: rest =>
    if p.1 = id then
      ((p.1, applySet p.2 u) :: rest, if applySet p.2 u = p.2 then 0 else 1)
    else
      let r := update_one rest id u
      (p :: r.1, r.2)

/-- Model of `delete_one({"_id": id})`: remove the first matching document; the count
is `deleted_count` (0 or 1). -/
def delete_one (notes : List (Int × Note)) (id : Int) :
    List (Int × Note) × Nat :=
  match notes with
  | [] => ([], 0)
  | p :: rest =>
    if p.1 = id then (rest, 1)
    else
      let r := delete_one rest id
      (p :: r.1, r.2)

/-- Model of `search_engine.add_note_to_index`: encode the content and
`add_with_ids` — FAISS appends the `(id, vector)` pair to the index. -/
def add_note_to_index {V : Type} (encode : String → V)
    (index : List (Int × V)) (note_id : Int) (content : String) :
    List (Int × V) :=
  index ++ [(note_id, encode content)]

/-- Model of `search_engine.remove_note_from_index`: `remove_ids` drops every entry
carrying the id (a no-op when none is present). -/
def remove_note_from_index {V : Type} (index : List (Int × V))
    (note_id : Int) : List (Int × V) :=
  index.filter (fun e => decide (e.1 ≠ note_id))

/-- Model of `note_crud.add_note`. Here `audioResult` is `none` when no `audio_path` was
given, and otherwise the outcome of `transcribe_audio` (which raises on
failure, before any state is touched). On success the transcript replaces the
`content` parameter. Returns the allocated id (or the propagated
transcription error) together with the resulting state. -/
def add_note {V : Type} (encode : String → V) (s : AppState V)
    (title content : String) (tags : Option (List String))
    (workspace : Option String) (audioResult : Option (Except String String))
    (now : Nat) : Except String Int × AppState V :=
  match audioResult with
  | some (Except.error e) => (Except.error e, s)
  | _ =>
    let content1 := match audioResult with
      | some (Except.ok t) => t
      | _ => content
    let tags1 := tags.getD []
    let ws := workspace.getD "default"
    let r := get_next_note_id s.db
    let note : Note :=
      { title := title, content := content1, tags := tags1, workspace := ws,
        created_at := now, updated_at := now }
    let db1 : DB := { r.2 with notes := r.2.notes ++ [(r.1, note)] }
    (Except.ok r.1,
      { db := db1, index := add_note_to_index encode s.index r.1 content1 })

/-- Model of `note_crud.delete_note`: delete by id; only when `deleted_count` is
nonzero is the index entry removed. -/
def delete_note {V : Type} (s : AppState V) (note_id : Int) :
    Nat × AppState V :=
  let r := delete_one s.db.notes note_id
  let s1 : AppState V := { s with db := { s.db with notes := r.1 } }
  if r.2 ≠ 0 then
    (r.2, { s1 with index := remove_note_from_index s1.index note_id })
  else (r.2, s1)

/-- Model of `note_crud.edit_note`: when `content` is among the updates the index entry
is removed before the database write, and re-added with the new content only
when the write reports a nonzero `modified_count`. -/
def edit_note {V : Type} (encode : String → V) (s : AppState V)
    (note_id : Int) (u : NoteUpdates) : Nat × AppState V :=
  let idx1 := if u.content.isSome then remove_note_from_index s.index note_id
    else s.index
  let r := update_one s.db.notes note_id u
  let s1 : AppState V := { db := { s.db with notes := r.1 }, index := idx1 }
  match u.content with
  | some c =>
    if r.2 ≠ 0 then
      (r.2, { s1 with index := add_note_to_index encode idx1 note_id c })
    else (r.2, s1)
  | none => (r.2, s1)

/-- The dominance order FAISS search results obey: strictly smaller distance
first, equal distances resolved by insertion position. A candidate is a
triple `(id, distance-to-query, insertion position)`. -/
def rankLE (a b : Int × Nat × Nat) : Prop :=
  a.2.1 < b.2.1 ∨ (a.2.1 = b.2.1 ∧ a.2.2 ≤ b.2.2)

instance rankLE.decRel : DecidableRel rankLE := fun a b =>
  inferInstanceAs (Decidable (_ ∨ _))

instance rankLE.total : IsTotal (Int × Nat × Nat) rankLE := by
  constructor
  intro a b
  rcases Nat.lt_trichotomy a.2.1 b.2.1 with h | h | h
  · exact Or.inl (Or.inl h)
  · rcases Nat.le_total a.2.2 b.2.2 with h2 | h2
    · exact Or.inl (Or.inr ⟨h, h2⟩)
    · exact Or.inr (Or.inr ⟨h.symm, h2⟩)
  · exact Or.inr (Or.inl h)

instance rankLE.trans : IsTrans (Int × Nat × Nat) rankLE := by
  constructor
  intro a b c hab hbc
  rcases hab with h1 | ⟨h1, h1'⟩ <;> rcases hbc with h2 | ⟨h2, h2'⟩
  · exact Or.inl (h1.trans h2)
  · exact Or.inl (h2 ▸ h1)
  · exact Or.inl (h1 ▸ h2)
  · exact Or.inr ⟨h1.trans h2, h1'.trans h2'⟩

/-- Candidates of a FAISS search: each stored entry annotated with its
distance to the query vector and its insertion position (`pos` counts from
the given start). -/
def candAux {V : Type} (dist : V → V → Nat) (qv : V) :
    Nat → List (Int × V) → List (Int × Nat × Nat)
  | _, [] => []
  | pos, e :: rest => (e.1, dist qv e.2, pos) :: candAux dist qv (pos + 1) rest

/-- All candidates of a search over the index, positions from 0. -/
def candidatesOf {V : Type} (dist : V → V → Nat) (index : List (Int × V))
    (qv : V) : List (Int × Nat × Nat) :=
  candAux dist qv 0 index

/-- The candidates ranked the way FAISS reports neighbors: ascending
distance, ties by insertion order. -/
def rankedCandidates {V : Type} (dist : V → V → Nat)
    (index : List (Int × V)) (qv : V) : List (Int × Nat × Nat) :=
  List.insertionSort rankLE (candidatesOf dist index qv)

/-- Model of `index.search(query_embedding, k)`, label row only: the ids of the `k`
nearest entries, padded with the sentinel `-1` when the index holds fewer
than `k` vectors. -/
def faissSearch {V : Type} (dist : V → V → Nat) (index : List (Int × V))
    (qv : V) (k : Nat) : List Int :=
  ((rankedCandidates dist index qv).take k).map (fun c => c.1)
    ++ List.replicate (k - index.length) (-1)

/-- Model of `search_engine.search_similar_notes`: encode the query, search, and keep
every reported label other than the `-1` sentinel. -/
def search_similar_notes {V : Type} (encode : String → V)
    (dist : V → V → Nat) (index : List (Int × V)) (query : String)
    (k : Nat) : List Int :=
  (faissSearch dist index (encode query) k).filter (fun i => decide (i ≠ -1))

/-- Model of `gemini_client.generate_response`: the Gemini call either yields text or
raises; the raise is caught and turned into the sentinel answer. `gen` maps
the prompt to the outcome of `model.generate_content`. -/
def generate_response (gen : String → Except String String)
    (prompt : String) : String :=
  match gen prompt with
  | Except.ok t => t
  | Except.error _ => "[AI response failed]"

/-- Model of `search_engine.full_text_search`: MongoDB's `$text` query returns the
matching documents of the collection, in storage order, each once. The text
predicate itself belongs to the database engine and is abstract here. -/
def full_text_search (tmatch : String → Note → Bool) (db : DB)
    (query : String) : List (Int × Note) :=
  db.notes.filter (fun p => tmatch query p.2)

/-- The merge step of `gemini_client.ask_question` (lines 77–88): start from
the semantic-search notes — fetched in bulk with `$in`, which returns the
matching documents in storage order — then append each full-text match whose
id is not among the semantic-search ids. The `isEmpty` guard mirrors the
`if similar_note_ids:` test around the bulk fetch. -/
def relevantNotesFor (db : DB) (simIds : List Int)
    (ftRes : List (Int × Note)) : List (Int × Note) :=
  let fromSemantic : List (Int × Note) :=
    if simIds.isEmpty then [] else db.notes.filter (fun p => p.1 ∈ simIds)
  ftRes.foldl (fun acc p => if p.1 ∈ simIds then acc else acc ++ [p])
    fromSemantic

/-- The fixed answer substituted when no relevant notes are found. -/
def no_match_response : String :=
  "I couldn\x27t find any notes that match your question. Please try adding some notes first or rephrase your question."

/-- One note's block of the context string (`i` is 1-based). -/
def noteBlock (i : Nat) (p : Int × Note) : String :=
  "Note " ++ toString i ++ ":\n"
    ++ "Title: " ++ p.2.title ++ "\n"
    ++ "Content: " ++ p.2.content ++ "\n"
    ++ "Tags: " ++ String.intercalate ", " p.2.tags ++ "\n"
    ++ "Workspace: " ++ p.2.workspace ++ "\n"
    ++ "Date: " ++ toString p.2.created_at ++ "\n"
    ++ String.mk (List.replicate 50 '-') ++ "\n\n"

/-- The context built from the displayed notes. -/
def buildContext (notes : List (Int × Note)) : String :=
  notes.enum.foldl (fun acc pe => acc ++ noteBlock (pe.1 + 1) pe.2)
    "Based on the following notes:\n\n"

/-- The instruction appended after the question. -/
def qaSuffix : String :=
  "\n\nPlease answer the question based on the notes provided above. If the notes don\x27t contain enough information to answer the question, please say so."

/-- What a call of `ask_question` produced: the answer, the cache afterwards,
and whether the call ran the searches / invoked the generation provider. -/
structure AskResult where
  answer : String
  cache : List (String × String)
  searched : Bool
  generated : Bool
deriving DecidableEq, Repr

/-- Model of `gemini_client.ask_question`. The process-lifetime `_qa_cache` is the
association list `cache` (most recent binding first); `gen` is the outcome of
the Gemini call per prompt; `tmatch` is the database's text-match predicate. -/
def ask_question {V : Type} (encode : String → V) (dist : V → V → Nat)
    (tmatch : String → Note → Bool) (gen : String → Except String String)
    (index : List (Int × V)) (db : DB) (cache : List (String × String))
    (question : String) (k : Nat) : AskResult :=
  match List.lookup question cache with
  | some ans => ⟨ans, cache, false, false⟩
  | none =>
    let simIds := search_similar_notes encode dist index question k
    let ftRes := full_text_search tmatch db question
    let relevant := relevantNotesFor db simIds ftRes
    if relevant.isEmpty then
      ⟨no_match_response, (question, no_match_response) :: cache, true, false⟩
    else
      let prompt := buildContext (relevant.take k)
        ++ "\n\nQuestion: " ++ question ++ qaSuffix
      let response := generate_response gen prompt
      ⟨response, (question, response) :: cache, true, true⟩

/-- Model of `agent_runner.check_trigger`: `"tag:[]"` tests for an empty tag list,
any other `"tag:X"` tests membership of `X`, anything else never fires.
Python's `trigger.startswith("tag:")` is rendered as equality of the 4-glyph
prefix. -/
def check_trigger (trigger : String) (note : Note) : Bool :=
  if trigger.take 4 = "tag:" then
    let tag_condition := trigger.drop 4
    if tag_condition = "[]" then note.tags.isEmpty
    else note.tags.contains tag_condition
  else false

/-- One entry of `mcp/agents.json`: `config.get("trigger")` /
`config.get("action")` may be absent. -/
structure AgentRule where
  trigger : Option String
  action : Option String
deriving DecidableEq, Repr

/-- Outcomes of the external side effects an action handler performs. Each
field is the result of the corresponding call: `Except.error` models the call
raising. `now` is the wall clock read by the handlers. -/
structure Effects where
  calendarWrite : Except String Unit
  whatsappWrite : Except String Unit
  gemini : String → Except String String
  now : Nat

/-- Model of `agent_runner.add_to_calendar`: the note's title and content are read
(total on a well-formed note record); the `try` block covers the ICS
construction and file writes, and its `except` logs the failure, so neither
outcome escapes the handler. -/
def add_to_calendar (eff : Effects) (db : DB) (note : Int × Note) :
    Except String DB :=
  match eff.calendarWrite with
  | Except.ok _ => Except.ok db
  | Except.error _ => Except.ok db

/-- Model of `agent_runner.share_to_whatsapp`: same shape — the file writes sit inside
the `try`, the `except` logs. -/
def share_to_whatsapp (eff : Effects) (db : DB) (note : Int × Note) :
    Except String DB :=
  match eff.whatsappWrite with
  | Except.ok _ => Except.ok db
  | Except.error _ => Except.ok db

/-- Model of `agent_runner.rephrase_note`: ask Gemini to rephrase
(`generate_response` already converts a raise into its sentinel) and store
the result, stamping `updated_at`; the whole body sits inside a `try`. -/
def rephrase_note (eff : Effects) (db : DB) (note : Int × Note) :
    Except String DB :=
  let new_content := generate_response eff.gemini
    ("Rephrase the following note: " ++ note.2.content)
  Except.ok { db with
    notes := (update_one db.notes note.1
      { content := some new_content, updated_at := some eff.now }).1 }

/-- Stripping of a tag fragment (`str.strip`). -/
def stripTag (s : String) : String := s.trim

/-- Model of `agent_runner.suggest_tags`: split Gemini's reply on commas, strip, and
union with the current tags (`list(set(...))` — the set's iteration order is
unspecified, modelled as first-occurrence deduplication); the whole body sits
inside a `try`. -/
def suggest_tags (eff : Effects) (db : DB) (note : Int × Note) :
    Except String DB :=
  let suggested := ((generate_response eff.gemini
    ("Suggest 1 to 3 tags for this note: " ++ note.2.content)).splitOn ",").map stripTag
  let new_tags := (note.2.tags ++ suggested).dedup
  Except.ok { db with
    notes := (update_one db.notes note.1 { tags := some new_tags }).1 }

/-- The keys of `agent_runner.action_functions`. -/
def action_names : List String :=
  ["calendar_event", "share_to_whatsapp", "rephrase_with_gemini", "suggest_tags"]

/-- Model of `agent_runner.perform_action`: dispatch on the action name; an unknown
name is logged and skipped, not an error. -/
def perform_action (eff : Effects) (action : String) (note : Int × Note)
    (db : DB) : Except String DB :=
  if action = "calendar_event" then add_to_calendar eff db note
  else if action = "share_to_whatsapp" then share_to_whatsapp eff db note
  else if action = "rephrase_with_gemini" then rephrase_note eff db note
  else if action = "suggest_tags" then suggest_tags eff db note
  else Except.ok db

/-- Model of `agent_runner.run_agents` over an already-loaded rule list: for each rule
with both fields present and non-empty (Python truthiness of the strings),
evaluate the trigger and, when satisfied, perform the action; an exception
escaping a handler would propagate and abort the remaining rules and the
caller. Returns the final database and the names of the actions attempted. -/
def run_agents (eff : Effects) (note : Int × Note) :
    DB → List AgentRule → Except String (DB × List String)
  | db, [] => Except.ok (db, [])
  | db, r :: rest =>
    let step : Except String (DB × Option String) :=
      match r.trigger, r.action with
      | some t, some a =>
        if t ≠ "" ∧ a ≠ "" then
          if check_trigger t note.2 then
            match perform_action eff a note db with
            | Except.ok db1 => Except.ok (db1, some a)
            | Except.error e => Except.error e
          else Except.ok (db, none)
        else Except.ok (db, none)
      | _, _ => Except.ok (db, none)
    match step with
    | Except.error e => Except.error e
    | Except.ok (db1, fired) =>
      match run_agents eff note db1 rest with
      | Except.error e => Except.error e
      | Except.ok (db2, fs) =>
        Except.ok (db2, (fired.toList) ++ fs)

/-- The actions `run_agents` should attempt on a note: those of the rules
whose trigger and action are present, non-empty, and whose trigger is
satisfied by the note. -/
def satisfiedActions (note : Int × Note) (rules : List AgentRule) :
    List String :=
  rules.filterMap (fun r =>
    match r.trigger, r.action with
    | some t, some a =>
      if t ≠ "" ∧ a ≠ "" then
        if check_trigger t note.2 then some a else none
      else none
    | _, _ => none)

/-- An operation entering through the Note Repository. -/
inductive Op where
  | create (title content : String) (tags : Option (List String))
      (workspace : Option String) (audioResult : Option (Except String String))
      (now : Nat)
  | update (id : Int) (u : NoteUpdates)
  | delete (id : Int)

/-- Run one repository operation (return values dropped). -/
def runOp {V : Type} (encode : String → V) (s : AppState V) : Op → AppState V
  | Op.create title content tags ws audio now =>
    (add_note encode s title content tags ws audio now).2
  | Op.update id u => (edit_note encode s id u).2
  | Op.delete id => (delete_note s id).2

/-- Run a sequence of repository operations. -/
def runOps {V : Type} (encode : String → V) (s : AppState V) :
    List Op → AppState V
  | [] => s
  | op :: rest => runOps encode (runOp encode s op) rest

/-- Well-formedness of the repository state: note ids never exceed the
counter, note keys and index ids are duplicate-free, and an index entry
exists exactly for the ids of currently stored notes. -/
def WF {V : Type} (s : AppState V) : Prop :=
  (∀ p ∈ s.db.notes, p.1 ≤ s.db.counterSeq)
    ∧ (s.db.notes.map (fun p => p.1)).Nodup
    ∧ (s.index.map (fun e => e.1)).Nodup
    ∧ (∀ e ∈ s.index, e.1 ∈ s.db.notes.map (fun p => p.1))
    ∧ (∀ p ∈ s.db.notes, p.1 ∈ s.index.map (fun e => e.1))

instance {V : Type} (s : AppState V) : Decidable (WF s) := by
  unfold WF; infer_instance

/-- A benign operation: an update carrying `content` either misses every
stored note or actually changes the note it hits (so the database write
reports a nonzero `modified_count`). -/
def goodOp {V : Type} (s : AppState V) : Op → Prop
  | Op.update id u =>
    u.content.isSome → ∀ p ∈ s.db.notes, p.1 = id → applySet p.2 u ≠ p.2
  | _ => True

instance {V : Type} (s : AppState V) (op : Op) : Decidable (goodOp s op) := by
  cases op <;> (unfold goodOp; infer_instance)

/-- A benign operation sequence: each operation is benign in the state it
runs in. -/
def GoodOps {V : Type} (encode : String → V) (s : AppState V) :
    List Op → Prop
  | [] => True
  | op :: rest => goodOp s op ∧ GoodOps encode (runOp encode s op) rest

instance {V : Type} (encode : String → V) (s : AppState V) (ops : List Op) :
    Decidable (GoodOps encode s ops) := by
  induction ops generalizing s with
  | nil => exact isTrue trivial
  | cons op rest ih =>
    have : Decidable (goodOp s op ∧ GoodOps encode (runOp encode s op) rest) :=
      @instDecidableAnd _ _ _ (ih (runOp encode s op))
    exact this

theorem filter_ne_of_not_mem {β : Type} (l : List (Int × β)) (id : Int)
    (h : id ∉ l.map (fun p => p.1)) :
    l.filter (fun e => decide (e.1 ≠ id)) = l := by
  rw [List.filter_eq_self]
  intro a ha
  simp only [decide_eq_true_eq]
  intro hc
  exact h (List.mem_map.mpr ⟨a, ha, hc⟩)

theorem map_fst_filter_ne {β : Type} (l : List (Int × β)) (id : Int) :
    (l.filter (fun e => decide (e.1 ≠ id))).map (fun p => p.1)
      = (l.map (fun p => p.1)).filter (fun x => decide (x ≠ id)) := by
  induction l with
  | nil => rfl
  | cons p rest ih =>
    by_cases h : p.1 = id
    · rw [List.filter_cons, if_neg (by simp [h]), List.map_cons,
        List.filter_cons, if_neg (by simp [h])]
      exact ih
    · rw [List.filter_cons, if_pos (by simp [h]), List.map_cons,
        List.map_cons, List.filter_cons, if_pos (by simp [h]), ih]

theorem update_one_fst (notes : List (Int × Note)) (id : Int)
    (u : NoteUpdates) :
    ((update_one notes id u).1).map (fun p => p.1)
      = notes.map (fun p => p.1) := by
  induction notes with
  | nil => rfl
  | cons p rest ih =>
    by_cases h : p.1 = id <;> simp [update_one, h, ih]

theorem update_one_not_mem (notes : List (Int × Note)) (id : Int)
    (u : NoteUpdates) (h : id ∉ notes.map (fun p => p.1)) :
    update_one notes id u = (notes, 0) := by
  induction notes with
  | nil => rfl
  | cons p rest ih =>
    simp only [List.map_cons, List.mem_cons, not_or] at h
    have hne : ¬ p.1 = id := fun hc => h.1 hc.symm
    simp [update_one, hne, ih h.2]

theorem update_one_modified_of_mem (notes : List (Int × Note)) (id : Int)
    (u : NoteUpdates) (hmem : id ∈ notes.map (fun p => p.1))
    (hch : ∀ p ∈ notes, p.1 = id → applySet p.2 u ≠ p.2) :
    (update_one notes id u).2 ≠ 0 := by
  induction notes with
  | nil => simp at hmem
  | cons p rest ih =>
    by_cases h : p.1 = id
    · have hne := hch p (List.mem_cons_self p rest) h
      simp [update_one, h, hne]
    · simp only [List.map_cons, List.mem_cons] at hmem
      rcases hmem with hmem | hmem
      · exact absurd hmem.symm h
      · have := ih hmem (fun q hq hq1 => hch q (List.mem_cons_of_mem p hq) hq1)
        simpa [update_one, h] using this

theorem delete_one_not_mem (notes : List (Int × Note)) (id : Int)
    (h : id ∉ notes.map (fun p => p.1)) :
    delete_one notes id = (notes, 0) := by
  induction notes with
  | nil => rfl
  | cons p rest ih =>
    simp only [List.map_cons, List.mem_cons, not_or] at h
    have hne : ¬ p.1 = id := fun hc => h.1 hc.symm
    simp [delete_one, hne, ih h.2]

theorem delete_one_snd (notes : List (Int × Note)) (id : Int) :
    (delete_one notes id).2 ≠ 0 ↔ id ∈ notes.map (fun p => p.1) := by
  induction notes with
  | nil => simp [delete_one]
  | cons p rest ih =>
    by_cases h : p.1 = id
    · simp [delete_one, h]
    · have hne : ¬ id = p.1 := fun hc => h hc.symm
      simp [delete_one, h, ih, hne]

theorem delete_one_of_nodup (notes : List (Int × Note)) (id : Int)
    (hn : (notes.map (fun p => p.1)).Nodup) :
    (delete_one notes id).1 = notes.filter (fun p => decide (p.1 ≠ id)) := by
  induction notes with
  | nil => rfl
  | cons p rest ih =>
    simp only [List.map_cons, List.nodup_cons] at hn
    by_cases h : p.1 = id
    · have hrest : id ∉ rest.map (fun q => q.1) := h ▸ hn.1
      rw [show delete_one (p :: rest) id = (rest, 1) by simp [delete_one, h],
        List.filter_cons, if_neg (by simp [h])]
      exact (filter_ne_of_not_mem rest id hrest).symm
    · rw [List.filter_cons, if_pos (by simp [h]), ← ih hn.2]
      simp [delete_one, h]

theorem WF_insert {V : Type} (s : AppState V) (note : Note) (v : V)
    (h : WF s) :
    WF (AppState.mk
      (DB.mk (s.db.notes ++ [(s.db.counterSeq + 1, note)])
        (s.db.counterSeq + 1))
      (s.index ++ [(s.db.counterSeq + 1, v)])) := by
  obtain ⟨h1, h2, h3, h4, h5⟩ := h
  have hfreshN : (s.db.counterSeq + 1) ∉ s.db.notes.map (fun p => p.1) := by
    intro hc
    obtain ⟨p, hp, hpe⟩ := List.mem_map.mp hc
    have := h1 p hp
    omega
  have hfreshI : (s.db.counterSeq + 1) ∉ s.index.map (fun e => e.1) := by
    intro hc
    obtain ⟨e, he, hee⟩ := List.mem_map.mp hc
    obtain ⟨p, hp, hpe⟩ := List.mem_map.mp (h4 e he)
    have := h1 p hp
    omega
  refine ⟨?_, ?_, ?_, ?_, ?_⟩
  · intro p hp
    rcases List.mem_append.mp hp with hp | hp
    · have := h1 p hp
      simp only []
      omega
    · rw [List.mem_singleton.mp hp]
  · rw [List.map_append]
    refine (List.nodup_append).mpr ⟨h2, by simp, ?_⟩
    intro a ha hb
    simp only [List.map_cons, List.map_nil, List.mem_singleton] at hb
    rw [hb] at ha
    exact hfreshN ha
  · rw [List.map_append]
    refine (List.nodup_append).mpr ⟨h3, by simp, ?_⟩
    intro a ha hb
    simp only [List.map_cons, List.map_nil, List.mem_singleton] at hb
    rw [hb] at ha
    exact hfreshI ha
  · intro e he
    rw [List.map_append]
    rcases List.mem_append.mp he with he | he
    · exact List.mem_append_left _ (h4 e he)
    · rw [List.mem_singleton.mp he]
      exact List.mem_append_right _ (by simp)
  · intro p hp
    rw [List.map_append]
    rcases List.mem_append.mp hp with hp | hp
    · exact List.mem_append_left _ (h5 p hp)
    · rw [List.mem_singleton.mp hp]
      exact List.mem_append_right _ (by simp)

theorem WF_add_note {V : Type} (encode : String → V) (s : AppState V)
    (title content : String) (tags : Option (List String))
    (ws : Option String) (audio : Option (Except String String)) (now : Nat)
    (h : WF s) :
    WF (add_note encode s title content tags ws audio now).2 := by
  match audio with
  | none =>
    simpa [add_note, add_note_to_index, get_next_note_id] using
      WF_insert s
        { title := title, content := content, tags := tags.getD [],
          workspace := ws.getD "default", created_at := now,
          updated_at := now } (encode content) h
  | some (Except.ok t) =>
    simpa [add_note, add_note_to_index, get_next_note_id] using
      WF_insert s
        { title := title, content := t, tags := tags.getD [],
          workspace := ws.getD "default", created_at := now,
          updated_at := now } (encode t) h
  | some (Except.error e) => simpa [add_note] using h

theorem WF_delete_note {V : Type} (s : AppState V) (id : Int) (h : WF s) :
    WF (delete_note s id).2 := by
  by_cases hm : id ∈ s.db.notes.map (fun p => p.1)
  · have hdel1 := delete_one_of_nodup s.db.notes id h.2.1
    have hdel2 : (delete_one s.db.notes id).2 ≠ 0 := (delete_one_snd _ _).mpr hm
    have hstate : (delete_note s id).2 =
        AppState.mk
          (DB.mk (s.db.notes.filter (fun p => decide (p.1 ≠ id)))
            s.db.counterSeq)
          (s.index.filter (fun e => decide (e.1 ≠ id))) := by
      simp [delete_note, hdel2, hdel1, remove_note_from_index]
    rw [hstate]
    obtain ⟨h1, h2, h3, h4, h5⟩ := h
    refine ⟨?_, ?_, ?_, ?_, ?_⟩
    · intro p hp
      exact h1 p (List.mem_of_mem_filter hp)
    · rw [map_fst_filter_ne]
      exact h2.filter _
    · rw [map_fst_filter_ne]
      exact h3.filter _
    · intro e he
      have he2 := List.mem_filter.mp he
      have hne : e.1 ≠ id := by simpa using he2.2
      rw [map_fst_filter_ne]
      exact List.mem_filter.mpr ⟨h4 e he2.1, by simpa using hne⟩
    · intro p hp
      have hp2 := List.mem_filter.mp hp
      have hne : p.1 ≠ id := by simpa using hp2.2
      rw [map_fst_filter_ne]
      exact List.mem_filter.mpr ⟨h5 p hp2.1, by simpa using hne⟩
  · have hd := delete_one_not_mem s.db.notes id hm
    have hstate : (delete_note s id).2 = s := by
      simp [delete_note, hd]
    rw [hstate]
    exact h

theorem mem_keys_iff {β : Type} (l : List (Int × β)) (x : Int) :
    x ∈ l.map (fun p => p.1) ↔ ∃ p ∈ l, p.1 = x := by
  simp [List.mem_map]

theorem WF_edit_note {V : Type} (encode : String → V) (s : AppState V)
    (id : Int) (u : NoteUpdates)
    (hgood : u.content.isSome →
      ∀ p ∈ s.db.notes, p.1 = id → applySet p.2 u ≠ p.2)
    (h : WF s) : WF (edit_note encode s id u).2 := by
  obtain ⟨h1, h2, h3, h4, h5⟩ := h
  have hkeys := update_one_fst s.db.notes id u
  match hu : u.content with
  | none =>
    have hstate : (edit_note encode s id u).2 =
        AppState.mk (DB.mk (update_one s.db.notes id u).1 s.db.counterSeq)
          s.index := by
      simp [edit_note, hu]
    rw [hstate]
    refine ⟨?_, ?_, ?_, ?_, ?_⟩
    · intro p hp
      have : p.1 ∈ s.db.notes.map (fun q => q.1) := by
        rw [← hkeys]
        exact List.mem_map.mpr ⟨p, hp, rfl⟩
      obtain ⟨q, hq, hqe⟩ := List.mem_map.mp this
      exact hqe ▸ h1 q hq
    · rw [hkeys]; exact h2
    · exact h3
    · intro e he
      rw [hkeys]
      exact h4 e he
    · intro p hp
      have : p.1 ∈ s.db.notes.map (fun q => q.1) := by
        rw [← hkeys]
        exact List.mem_map.mpr ⟨p, hp, rfl⟩
      obtain ⟨q, hq, hqe⟩ := List.mem_map.mp this
      exact hqe ▸ h5 q hq
  | some c =>
    by_cases hm : id ∈ s.db.notes.map (fun p => p.1)
    · have hmod : (update_one s.db.notes id u).2 ≠ 0 :=
        update_one_modified_of_mem s.db.notes id u hm
          (hgood (by simp [hu]))
      have hstate : (edit_note encode s id u).2 =
          AppState.mk (DB.mk (update_one s.db.notes id u).1 s.db.counterSeq)
            ((s.index.filter (fun e => decide (e.1 ≠ id)))
              ++ [(id, encode c)]) := by
        simp [edit_note, hu, hmod, remove_note_from_index, add_note_to_index]
      rw [hstate]
      refine ⟨?_, ?_, ?_, ?_, ?_⟩
      · intro p hp
        have : p.1 ∈ s.db.notes.map (fun q => q.1) := by
          rw [← hkeys]
          exact List.mem_map.mpr ⟨p, hp, rfl⟩
        obtain ⟨q, hq, hqe⟩ := List.mem_map.mp this
        exact hqe ▸ h1 q hq
      · rw [hkeys]; exact h2
      · rw [List.map_append, map_fst_filter_ne]
        refine (List.nodup_append).mpr ⟨h3.filter _, by simp, ?_⟩
        intro a ha hb
        simp only [List.map_cons, List.map_nil, List.mem_singleton] at hb
        have := (List.mem_filter.mp ha).2
        rw [hb] at this
        simp at this
      · intro e he
        rw [hkeys]
        rcases List.mem_append.mp he with he | he
        · exact h4 e (List.mem_of_mem_filter he)
        · rw [List.mem_singleton.mp he]
          exact hm
      · intro p hp
        have hpk : p.1 ∈ s.db.notes.map (fun q => q.1) := by
          rw [← hkeys]
          exact List.mem_map.mpr ⟨p, hp, rfl⟩
        rw [List.map_append, map_fst_filter_ne]
        by_cases hpe : p.1 = id
        · exact List.mem_append_right _ (by simp [hpe])
        · obtain ⟨q, hq, hqe⟩ := List.mem_map.mp hpk
          have : p.1 ∈ s.index.map (fun e => e.1) := hqe ▸ h5 q hq
          exact List.mem_append_left _
            (List.mem_filter.mpr ⟨this, by simpa using hpe⟩)
    · have hupd := update_one_not_mem s.db.notes id u hm
      have hidx : id ∉ s.index.map (fun e => e.1) := by
        intro hc
        obtain ⟨e, he, hee⟩ := List.mem_map.mp hc
        exact hm (hee ▸ h4 e he)
      have hstate : (edit_note encode s id u).2 =
          AppState.mk (DB.mk s.db.notes s.db.counterSeq)
            (remove_note_from_index s.index id) := by
        simp [edit_note, hu, hupd]
      rw [hstate,
        show remove_note_from_index s.index id = s.index from
          filter_ne_of_not_mem s.index id hidx]
      exact ⟨h1, h2, h3, h4, h5⟩

theorem WF_runOp {V : Type} (encode : String → V) (s : AppState V)
    (op : Op) (hgood : goodOp s op) (h : WF s) :
    WF (runOp encode s op) := by
  match op with
  | Op.create title content tags ws audio now =>
    exact WF_add_note encode s title content tags ws audio now h
  | Op.update id u => exact WF_edit_note encode s id u hgood h
  | Op.delete id => exact WF_delete_note s id h

theorem WF_runOps {V : Type} (encode : String → V) (s : AppState V)
    (ops : List Op) (hgood : GoodOps encode s ops) (h : WF s) :
    WF (runOps encode s ops) := by
  induction ops generalizing s with
  | nil => exact h
  | cons op rest ih =>
    exact ih (runOp encode s op) hgood.2 (WF_runOp encode s op hgood.1 h)

/-- C2: for every note id and every update whose field changes include
`content`, `edit_note` removes the Vector Index entry for the id before the
database write and re-adds it with the new content exactly when the write
reports a nonzero `modified_count`; when the update reports zero modified
records the entry is not re-added. -/
theorem c2_edit_removes_then_readds {V : Type} (encode : String → V)
    (s : AppState V) (id : Int) (u : NoteUpdates) (c : String)
    (hc : u.content = some c) :
    ((edit_note encode s id u).1 = 0 →
      (edit_note encode s id u).2.index = remove_note_from_index s.index id)
    ∧ ((edit_note encode s id u).1 ≠ 0 →
      (edit_note encode s id u).2.index
        = remove_note_from_index s.index id ++ [(id, encode c)]) := by
  by_cases hz : (update_one s.db.notes id u).2 = 0
  · have hstate : edit_note encode s id u =
        (0, AppState.mk (DB.mk (update_one s.db.notes id u).1 s.db.counterSeq)
          (remove_note_from_index s.index id)) := by
      simp [edit_note, hc, hz]
    rw [hstate]
    exact ⟨fun _ => rfl, fun hn => absurd rfl hn⟩
  · have hstate : edit_note encode s id u =
        ((update_one s.db.notes id u).2,
          AppState.mk (DB.mk (update_one s.db.notes id u).1 s.db.counterSeq)
            (add_note_to_index encode (remove_note_from_index s.index id)
              id c)) := by
      simp [edit_note, hc, hz]
    rw [hstate]
    exact ⟨fun h0 => absurd h0 hz, fun _ => rfl⟩

theorem c2_witness :
    (({ content := some "B" } : NoteUpdates).content = some "B")
    ∧ (((edit_note (fun t => t)
        (AppState.mk (DB.mk [((1 : Int), Note.mk "T" "A" [] "default" 0 0)] 1)
          [((1 : Int), "A")]) 1 { content := some "B" }).1 = 0 →
      (edit_note (fun t => t)
        (AppState.mk (DB.mk [((1 : Int), Note.mk "T" "A" [] "default" 0 0)] 1)
          [((1 : Int), "A")]) 1 { content := some "B" }).2.index
        = remove_note_from_index [((1 : Int), "A")] 1)
    ∧ ((edit_note (fun t => t)
        (AppState.mk (DB.mk [((1 : Int), Note.mk "T" "A" [] "default" 0 0)] 1)
          [((1 : Int), "A")]) 1 { content := some "B" }).1 ≠ 0 →
      (edit_note (fun t => t)
        (AppState.mk (DB.mk [((1 : Int), Note.mk "T" "A" [] "default" 0 0)] 1)
          [((1 : Int), "A")]) 1 { content := some "B" }).2.index
        = remove_note_from_index [((1 : Int), "A")] 1 ++ [(1, "B")])) :=
  ⟨rfl, c2_edit_removes_then_readds (fun t => t)
    (AppState.mk (DB.mk [((1 : Int), Note.mk "T" "A" [] "default" 0 0)] 1)
      [((1 : Int), "A")]) 1 { content := some "B" } "B" rfl⟩

/-- C3 as stated is false: `add_with_ids` appends, it does not overwrite, so
adding a second entry under an id already present leaves two entries for that
id. -/
theorem c3_counterexample :
    add_note_to_index (fun t => t) [((1 : Int), "a")] 1 "b"
      = [(1, "a"), (1, "b")]
    ∧ ¬ (((add_note_to_index (fun t => t) [((1 : Int), "a")] 1 "b").map
        (fun e => e.1)).count 1 ≤ 1) := by
  constructor
  · rfl
  · decide

/-- C3 amended: `add_note_to_index` appends a new entry whose vector embeds
the given text, leaving any existing entries in place; the index holds at
most one entry for the id afterwards exactly when no entry for that id
existed beforehand. -/
theorem c3_add_appends_entry {V : Type} (encode : String → V)
    (index : List (Int × V)) (id : Int) (t : String) :
    add_note_to_index encode index id t = index ++ [(id, encode t)]
    ∧ (((index.map (fun e => e.1)).count id = 0 →
        ((add_note_to_index encode index id t).map (fun e => e.1)).count id
          = 1)) := by
  refine ⟨rfl, ?_⟩
  intro h0
  simp [add_note_to_index, List.count_append, h0]

theorem c3_witness :
    ((([((2 : Int), "x")]).map (fun e : Int × String => e.1)).count 1 = 0)
    ∧ (add_note_to_index (fun t => t) [((2 : Int), "x")] 1 "b"
        = [(2, "x")] ++ [(1, "b")]
      ∧ (((([((2 : Int), "x")]).map (fun e : Int × String => e.1)).count 1 = 0 →
        ((add_note_to_index (fun t => t) [((2 : Int), "x")] 1 "b").map
          (fun e => e.1)).count 1 = 1))) :=
  ⟨by decide, c3_add_appends_entry (fun t => t) [((2 : Int), "x")] 1 "b"⟩

/-- C8: when an audio reference is supplied, a successful transcription
replaces the `content` parameter in the stored note and in the index entry;
a failed transcription propagates as the error and leaves the state
untouched — no id allocated, no insert, no index entry. -/
theorem c8_transcription_replaces_content {V : Type} (encode : String → V)
    (s : AppState V) (title content : String) (tags : Option (List String))
    (ws : Option String) (now : Nat) :
    (∀ t : String,
      (add_note encode s title content tags ws (some (Except.ok t)) now).1
          = Except.ok (s.db.counterSeq + 1)
      ∧ (add_note encode s title content tags ws (some (Except.ok t))
          now).2.db.notes
        = s.db.notes ++ [(s.db.counterSeq + 1,
            Note.mk title t (tags.getD []) (ws.getD "default") now now)]
      ∧ (add_note encode s title content tags ws (some (Except.ok t))
          now).2.index
        = s.index ++ [(s.db.counterSeq + 1, encode t)])
    ∧ (∀ e : String,
      add_note encode s title content tags ws (some (Except.error e)) now
        = (Except.error e, s)) := by
  exact ⟨fun t => ⟨rfl, rfl, rfl⟩, fun e => rfl⟩

/-- C9 as stated is false: a `"tag:X"` trigger is not always satisfied
exactly when `X` is among the tags — for the marker string `X = "[]"` the
code tests emptiness of the tag list instead, so a note literally tagged
`"[]"` does not fire `"tag:[]"`. -/
theorem c9_counterexample :
    ¬ ((check_trigger "tag:[]" (Note.mk "T" "C" ["[]"] "default" 0 0) = true)
      ↔ "[]" ∈ (Note.mk "T" "C" ["[]"] "default" 0 0).tags) := by
  decide

/-- C9 amended: for a trigger of the form `"tag:" ++ X`, if `X` is the
distinguished marker `"[]"` the trigger is satisfied exactly when the note
has no tags at all; for any other `X` it is satisfied exactly when `X` is
among the note's tags (in particular `"tag:work"` fires only when `"work"`
is present). -/
theorem c9_trigger_semantics (t : String) (note : Note)
    (hpre : t.take 4 = "tag:") :
    (t.drop 4 = "[]" → check_trigger t note = note.tags.isEmpty)
    ∧ (t.drop 4 ≠ "[]" →
        check_trigger t note = note.tags.contains (t.drop 4)) := by
  constructor <;> intro h <;> simp [check_trigger, hpre, h]

theorem c9_witness :
    ("tag:work".take 4 = "tag:")
    ∧ (("tag:work".drop 4 = "[]" →
        check_trigger "tag:work" (Note.mk "T" "C" ["home"] "default" 0 0)
          = (Note.mk "T" "C" ["home"] "default" 0 0).tags.isEmpty)
      ∧ ("tag:work".drop 4 ≠ "[]" →
        check_trigger "tag:work" (Note.mk "T" "C" ["home"] "default" 0 0)
          = (Note.mk "T" "C" ["home"] "default" 0 0).tags.contains
              ("tag:work".drop 4))) :=
  ⟨by decide, c9_trigger_semantics "tag:work"
    (Note.mk "T" "C" ["home"] "default" 0 0) (by decide)⟩

/-- C1 as stated is false on two counts. After `create` with empty content,
an index entry exists for a note whose content is empty (the claimed "entry
iff the note exists with non-empty content" fails left-to-right). After a
content update that rewrites a note with the values it already stores, the
database reports zero modified records, so the entry is removed and not
re-added while the note still exists with non-empty content (the claimed
equivalence fails right-to-left). -/
theorem c1_counterexample :
    (((1 : Int) ∈ (runOps (fun t => t) (AppState.mk (DB.mk [] 0) [])
          [Op.create "T" "" none none none 0]).index.map (fun e => e.1))
      ∧ ¬ (∃ p ∈ (runOps (fun t => t) (AppState.mk (DB.mk [] 0) [])
          [Op.create "T" "" none none none 0]).db.notes,
            p.1 = 1 ∧ p.2.content ≠ ""))
    ∧ (¬ ((1 : Int) ∈ (runOps (fun t => t) (AppState.mk (DB.mk [] 0) [])
          [Op.create "T" "C" none none none 0,
            Op.update 1 { content := some "C" }]).index.map (fun e => e.1))
      ∧ (∃ p ∈ (runOps (fun t => t) (AppState.mk (DB.mk [] 0) [])
          [Op.create "T" "C" none none none 0,
            Op.update 1 { content := some "C" }]).db.notes,
            p.1 = 1 ∧ p.2.content ≠ "")) := by
  decide

/-- C1 amended: across every sequence of create/update/delete operations in
which a content update never rewrites a stored note with the values it
already holds, well-formedness is preserved: at most one Vector Index entry
per id, and an entry exists for an id if and only if a note with that id
currently exists in the database (create indexes the stored content whether
or not it is empty). This survives a failed transcription, which leaves the
state untouched. -/
theorem c1_index_db_consistency {V : Type} (encode : String → V)
    (s : AppState V) (ops : List Op) (h : WF s)
    (hgood : GoodOps encode s ops) : WF (runOps encode s ops) :=
  WF_runOps encode s ops hgood h

theorem c1_witness :
    WF (AppState.mk (DB.mk [] 0) ([] : List (Int × String)))
    ∧ GoodOps (fun t => t) (AppState.mk (DB.mk [] 0) [])
        [Op.create "T" "C" none none none 0,
          Op.update 1 { content := some "D" },
          Op.create "U" "" none none (some (Except.error "fail")) 1,
          Op.delete 1]
    ∧ WF (runOps (fun t => t) (AppState.mk (DB.mk [] 0) [])
        [Op.create "T" "C" none none none 0,
          Op.update 1 { content := some "D" },
          Op.create "U" "" none none (some (Except.error "fail")) 1,
          Op.delete 1]) :=
  ⟨by decide, by decide,
    c1_index_db_consistency (fun t => t) (AppState.mk (DB.mk [] 0) [])
      [Op.create "T" "C" none none none 0,
        Op.update 1 { content := some "D" },
        Op.create "U" "" none none (some (Except.error "fail")) 1,
        Op.delete 1] (by decide) (by decide)⟩

theorem foldl_append_filter_not_mem (simIds : List Int)
    (l : List (Int × Note)) :
    ∀ acc : List (Int × Note),
      l.foldl (fun a p => if p.1 ∈ simIds then a else a ++ [p]) acc
        = acc ++ l.filter (fun p => decide (p.1 ∉ simIds)) := by
  induction l with
  | nil => intro acc; simp
  | cons p rest ih =>
    intro acc
    by_cases h : p.1 ∈ simIds
    · rw [List.foldl_cons, if_pos h, ih, List.filter_cons,
        if_neg (by simp [h])]
    · rw [List.foldl_cons, if_neg h, ih, List.filter_cons,
        if_pos (by simp [h]), List.append_assoc, List.singleton_append]

theorem fromSemantic_if_eq (db : DB) (simIds : List Int) :
    (if simIds.isEmpty then ([] : List (Int × Note))
      else db.notes.filter (fun p => decide (p.1 ∈ simIds)))
    = db.notes.filter (fun p => decide (p.1 ∈ simIds)) := by
  by_cases h : simIds.isEmpty
  · rw [if_pos h, List.isEmpty_iff.mp h]
    simp
  · rw [if_neg h]

/-- C5: the Retrieval Aggregator's combined list is exactly the
semantic-search notes (bulk-fetched in storage order) followed by the
full-text matches whose id is not among the semantic-search ids; when the
stored note ids are duplicate-free the combined list carries no two notes
with the same id — deduplication is by id alone, contents never compared. -/
theorem c5_merge_dedup_by_id (db : DB) (tmatch : String → Note → Bool)
    (q : String) (simIds : List Int)
    (hnd : (db.notes.map (fun p => p.1)).Nodup) :
    relevantNotesFor db simIds (full_text_search tmatch db q)
      = db.notes.filter (fun p => decide (p.1 ∈ simIds))
        ++ (full_text_search tmatch db q).filter
            (fun p => decide (p.1 ∉ simIds))
    ∧ ((relevantNotesFor db simIds (full_text_search tmatch db q)).map
        (fun p => p.1)).Nodup := by
  have heq : relevantNotesFor db simIds (full_text_search tmatch db q)
      = db.notes.filter (fun p => decide (p.1 ∈ simIds))
        ++ (full_text_search tmatch db q).filter
            (fun p => decide (p.1 ∉ simIds)) := by
    unfold relevantNotesFor
    rw [foldl_append_filter_not_mem, fromSemantic_if_eq]
  refine ⟨heq, ?_⟩
  rw [heq, List.map_append]
  refine (List.nodup_append).mpr ⟨?_, ?_, ?_⟩
  · exact ((List.filter_sublist db.notes).map (fun p => p.1)).nodup hnd
  · have hsub : List.Sublist
        ((full_text_search tmatch db q).filter
          (fun p => decide (p.1 ∉ simIds))) db.notes :=
      (List.filter_sublist _).trans (List.filter_sublist _)
    exact (hsub.map (fun p => p.1)).nodup hnd
  · intro a ha hb
    obtain ⟨p, hp, hpe⟩ := List.mem_map.mp ha
    obtain ⟨r, hr, hre⟩ := List.mem_map.mp hb
    have hpin : p.1 ∈ simIds := by simpa using (List.mem_filter.mp hp).2
    have hrout : r.1 ∉ simIds := by simpa using (List.mem_filter.mp hr).2
    exact hrout (hre ▸ hpe ▸ hpin)

theorem c5_witness :
    (((DB.mk [((1 : Int), Note.mk "A" "x" [] "default" 0 0),
        ((2 : Int), Note.mk "B" "y" [] "default" 0 0)] 2).notes.map
          (fun p => p.1)).Nodup)
    ∧ (relevantNotesFor
        (DB.mk [((1 : Int), Note.mk "A" "x" [] "default" 0 0),
          ((2 : Int), Note.mk "B" "y" [] "default" 0 0)] 2) [1]
        (full_text_search (fun _ _ => true)
          (DB.mk [((1 : Int), Note.mk "A" "x" [] "default" 0 0),
            ((2 : Int), Note.mk "B" "y" [] "default" 0 0)] 2) "q")
      = (DB.mk [((1 : Int), Note.mk "A" "x" [] "default" 0 0),
          ((2 : Int), Note.mk "B" "y" [] "default" 0 0)] 2).notes.filter
            (fun p => decide (p.1 ∈ [(1 : Int)]))
        ++ (full_text_search (fun _ _ => true)
            (DB.mk [((1 : Int), Note.mk "A" "x" [] "default" 0 0),
              ((2 : Int), Note.mk "B" "y" [] "default" 0 0)] 2) "q").filter
            (fun p => decide (p.1 ∉ [(1 : Int)]))
      ∧ ((relevantNotesFor
          (DB.mk [((1 : Int), Note.mk "A" "x" [] "default" 0 0),
            ((2 : Int), Note.mk "B" "y" [] "default" 0 0)] 2) [1]
          (full_text_search (fun _ _ => true)
            (DB.mk [((1 : Int), Note.mk "A" "x" [] "default" 0 0),
              ((2 : Int), Note.mk "B" "y" [] "default" 0 0)] 2) "q")).map
            (fun p => p.1)).Nodup) :=
  ⟨by decide,
    c5_merge_dedup_by_id
      (DB.mk [((1 : Int), Note.mk "A" "x" [] "default" 0 0),
        ((2 : Int), Note.mk "B" "y" [] "default" 0 0)] 2)
      (fun _ _ => true) "q" [1] (by decide)⟩

theorem lookup_cons_self {α β : Type} [BEq α] [LawfulBEq α] (a : α) (b : β)
    (l : List (α × β)) : List.lookup a ((a, b) :: l) = some b := by
  simp [List.lookup]

theorem ask_question_miss {V : Type} (encode : String → V)
    (dist : V → V → Nat) (tmatch : String → Note → Bool)
    (gen : String → Except String String) (index : List (Int × V)) (db : DB)
    (cache : List (String × String)) (q : String) (k : Nat)
    (hc : List.lookup q cache = none) :
    ask_question encode dist tmatch gen index db cache q k
      = if (relevantNotesFor db (search_similar_notes encode dist index q k)
            (full_text_search tmatch db q)).isEmpty then
          AskResult.mk no_match_response ((q, no_match_response) :: cache)
            true false
        else
          AskResult.mk
            (generate_response gen
              (buildContext ((relevantNotesFor db
                  (search_similar_notes encode dist index q k)
                  (full_text_search tmatch db q)).take k)
                ++ "\n\nQuestion: " ++ q ++ qaSuffix))
            ((q, generate_response gen
              (buildContext ((relevantNotesFor db
                  (search_similar_notes encode dist index q k)
                  (full_text_search tmatch db q)).take k)
                ++ "\n\nQuestion: " ++ q ++ qaSuffix)) :: cache)
            true true := by
  unfold ask_question
  rw [hc]

/-- C6: when the semantic search and the full-text search both come back
empty (and the question is not already cached), `ask_question` answers with
the fixed no-match response and never invokes the generation provider. -/
theorem c6_empty_results_fixed_response {V : Type} (encode : String → V)
    (dist : V → V → Nat) (tmatch : String → Note → Bool)
    (gen : String → Except String String) (index : List (Int × V)) (db : DB)
    (cache : List (String × String)) (q : String) (k : Nat)
    (hc : List.lookup q cache = none)
    (hs : search_similar_notes encode dist index q k = [])
    (hf : full_text_search tmatch db q = []) :
    (ask_question encode dist tmatch gen index db cache q k).answer
        = no_match_response
    ∧ (ask_question encode dist tmatch gen index db cache q k).generated
        = false := by
  have hrel : relevantNotesFor db (search_similar_notes encode dist index q k)
      (full_text_search tmatch db q) = [] := by
    rw [hs, hf]
    rfl
  rw [ask_question_miss encode dist tmatch gen index db cache q k hc,
    if_pos (by rw [hrel]; rfl)]
  exact ⟨rfl, rfl⟩

theorem c6_witness :
    (List.lookup "q" ([] : List (String × String)) = none)
    ∧ (search_similar_notes (fun _ => (0 : Nat)) (fun a b => a + b)
        ([] : List (Int × Nat)) "q" 5 = [])
    ∧ (full_text_search (fun _ _ => false) (DB.mk [] 0) "q" = [])
    ∧ ((ask_question (fun _ => (0 : Nat)) (fun a b => a + b)
        (fun _ _ => false) (fun _ => Except.error "x") [] (DB.mk [] 0) []
        "q" 5).answer = no_match_response
      ∧ (ask_question (fun _ => (0 : Nat)) (fun a b => a + b)
        (fun _ _ => false) (fun _ => Except.error "x") [] (DB.mk [] 0) []
        "q" 5).generated = false) :=
  ⟨rfl, by decide, rfl,
    c6_empty_results_fixed_response (fun _ => (0 : Nat)) (fun a b => a + b)
      (fun _ _ => false) (fun _ => Except.error "x") [] (DB.mk [] 0) []
      "q" 5 rfl (by decide) rfl⟩

/-- C10: on a cache miss, whatever answer `ask_question` produces — the
no-match response or the (possibly failed, sentinel) generated response — is
stored in the cache under the exact question string, and a later call with
the identical question returns that stored answer without running the
searches or the generation provider again. -/
theorem c10_cache_persistence {V : Type} (encode : String → V)
    (dist : V → V → Nat) (tmatch : String → Note → Bool)
    (gen : String → Except String String) (index : List (Int × V)) (db : DB)
    (cache : List (String × String)) (q : String) (k : Nat)
    (hc : List.lookup q cache = none) :
    List.lookup q
        (ask_question encode dist tmatch gen index db cache q k).cache
      = some (ask_question encode dist tmatch gen index db cache q k).answer
    ∧ ask_question encode dist tmatch gen index db
        (ask_question encode dist tmatch gen index db cache q k).cache q k
      = AskResult.mk
          (ask_question encode dist tmatch gen index db cache q k).answer
          (ask_question encode dist tmatch gen index db cache q k).cache
          false false := by
  rw [ask_question_miss encode dist tmatch gen index db cache q k hc]
  by_cases h : (relevantNotesFor db (search_similar_notes encode dist index q k)
      (full_text_search tmatch db q)).isEmpty
  · rw [if_pos h]
    refine ⟨lookup_cons_self q no_match_response cache, ?_⟩
    unfold ask_question
    rw [lookup_cons_self]
  · rw [if_neg h]
    refine ⟨lookup_cons_self q _ cache, ?_⟩
    unfold ask_question
    rw [lookup_cons_self]

theorem c10_witness :
    (List.lookup "q" ([] : List (String × String)) = none)
    ∧ (List.lookup "q"
        (ask_question (fun _ => (0 : Nat)) (fun a b => a + b)
          (fun _ _ => false) (fun _ => Except.error "x") [] (DB.mk [] 0) []
          "q" 5).cache
      = some (ask_question (fun _ => (0 : Nat)) (fun a b => a + b)
          (fun _ _ => false) (fun _ => Except.error "x") [] (DB.mk [] 0) []
          "q" 5).answer
      ∧ ask_question (fun _ => (0 : Nat)) (fun a b => a + b)
          (fun _ _ => false) (fun _ => Except.error "x") [] (DB.mk [] 0)
          (ask_question (fun _ => (0 : Nat)) (fun a b => a + b)
            (fun _ _ => false) (fun _ => Except.error "x") [] (DB.mk [] 0) []
            "q" 5).cache "q" 5
        = AskResult.mk
            (ask_question (fun _ => (0 : Nat)) (fun a b => a + b)
              (fun _ _ => false) (fun _ => Except.error "x") [] (DB.mk [] 0)
              [] "q" 5).answer
            (ask_question (fun _ => (0 : Nat)) (fun a b => a + b)
              (fun _ _ => false) (fun _ => Except.error "x") [] (DB.mk [] 0)
              [] "q" 5).cache
            false false) :=
  ⟨rfl,
    c10_cache_persistence (fun _ => (0 : Nat)) (fun a b => a + b)
      (fun _ _ => false) (fun _ => Except.error "x") [] (DB.mk [] 0) []
      "q" 5 rfl⟩

theorem candAux_fst {V : Type} (dist : V → V → Nat) (qv : V) :
    ∀ (pos : Nat) (l : List (Int × V)) (c : Int × Nat × Nat),
      c ∈ candAux dist qv pos l → ∃ e ∈ l, c.1 = e.1 := by
  intro pos l
  induction l generalizing pos with
  | nil => intro c hc; simp [candAux] at hc
  | cons e rest ih =>
    intro c hc
    rw [candAux] at hc
    rcases List.mem_cons.mp hc with h | h
    · exact ⟨e, List.mem_cons_self e rest, by rw [h]⟩
    · obtain ⟨e2, he2, hee⟩ := ih (pos + 1) c h
      exact ⟨e2, List.mem_cons_of_mem e he2, hee⟩

/-- C7: a query returns at most `k` note ids, none of them the `-1`
sentinel; the returned list is exactly the first `min k n` ids of the
candidates ranked by ascending distance with ties broken by insertion order,
so the list may hold fewer than `k` ids, including zero. -/
theorem c7_query_ranking {V : Type} (encode : String → V)
    (dist : V → V → Nat) (index : List (Int × V)) (q : String) (k : Nat)
    (hids : ∀ e ∈ index, e.1 ≠ -1) :
    (search_similar_notes encode dist index q k).length ≤ k
    ∧ (∀ i ∈ search_similar_notes encode dist index q k, i ≠ -1)
    ∧ search_similar_notes encode dist index q k
        = ((rankedCandidates dist index (encode q)).take k).map
            (fun c => c.1)
    ∧ List.Sorted rankLE (rankedCandidates dist index (encode q)) := by
  have hperm : List.Perm (rankedCandidates dist index (encode q))
      (candidatesOf dist index (encode q)) :=
    List.perm_insertionSort rankLE (candidatesOf dist index (encode q))
  have hcand : ∀ c ∈ rankedCandidates dist index (encode q), c.1 ≠ -1 := by
    intro c hc
    obtain ⟨e, he, hee⟩ :=
      candAux_fst dist (encode q) 0 index c (hperm.mem_iff.mp hc)
    rw [hee]
    exact hids e he
  have htake : ∀ i ∈ ((rankedCandidates dist index (encode q)).take k).map
      (fun c => c.1), i ≠ -1 := by
    intro i hi
    obtain ⟨c, hc, hce⟩ := List.mem_map.mp hi
    rw [← hce]
    exact hcand c ((List.take_sublist k _).subset hc)
  have heq : search_similar_notes encode dist index q k
      = ((rankedCandidates dist index (encode q)).take k).map
          (fun c => c.1) := by
    unfold search_similar_notes faissSearch
    rw [List.filter_append,
      List.filter_eq_self.mpr (fun a ha => by simpa using htake a ha),
      List.filter_eq_nil_iff.mpr (fun a ha => by
        simp [List.eq_of_mem_replicate ha]),
      List.append_nil]
  refine ⟨?_, ?_, heq, List.sorted_insertionSort rankLE _⟩
  · rw [heq, List.length_map, List.length_take]
    exact min_le_left _ _
  · intro i hi
    rw [heq] at hi
    exact htake i hi

theorem c7_witness :
    (∀ e ∈ [((5 : Int), (1 : Nat)), ((7 : Int), (2 : Nat))], e.1 ≠ -1)
    ∧ ((search_similar_notes (fun _ => (3 : Nat)) (fun a b => a + b)
        [((5 : Int), (1 : Nat)), ((7 : Int), (2 : Nat))] "abc" 5).length ≤ 5
      ∧ (∀ i ∈ search_similar_notes (fun _ => (3 : Nat)) (fun a b => a + b)
          [((5 : Int), (1 : Nat)), ((7 : Int), (2 : Nat))] "abc" 5, i ≠ -1)
      ∧ search_similar_notes (fun _ => (3 : Nat)) (fun a b => a + b)
            [((5 : Int), (1 : Nat)), ((7 : Int), (2 : Nat))] "abc" 5
          = ((rankedCandidates (fun a b => a + b)
              [((5 : Int), (1 : Nat)), ((7 : Int), (2 : Nat))]
              ((fun _ => (3 : Nat)) "abc")).take 5).map (fun c => c.1)
      ∧ List.Sorted rankLE (rankedCandidates (fun a b => a + b)
          [((5 : Int), (1 : Nat)), ((7 : Int), (2 : Nat))]
          ((fun _ => (3 : Nat)) "abc"))) :=
  ⟨by decide,
    c7_query_ranking (fun _ => (3 : Nat)) (fun a b => a + b)
      [((5 : Int), (1 : Nat)), ((7 : Int), (2 : Nat))] "abc" 5 (by decide)⟩

theorem perform_action_ok (eff : Effects) (a : String) (note : Int × Note)
    (db : DB) : ∃ db1, perform_action eff a note db = Except.ok db1 := by
  unfold perform_action
  by_cases h1 : a = "calendar_event"
  · rw [if_pos h1]
    cases hcw : eff.calendarWrite <;>
      exact ⟨db, by unfold add_to_calendar; rw [hcw]⟩
  · rw [if_neg h1]
    by_cases h2 : a = "share_to_whatsapp"
    · rw [if_pos h2]
      cases hww : eff.whatsappWrite <;>
        exact ⟨db, by unfold share_to_whatsapp; rw [hww]⟩
    · rw [if_neg h2]
      by_cases h3 : a = "rephrase_with_gemini"
      · rw [if_pos h3]
        exact ⟨_, rfl⟩
      · rw [if_neg h3]
        by_cases h4 : a = "suggest_tags"
        · rw [if_pos h4]
          exact ⟨_, rfl⟩
        · rw [if_neg h4]
          exact ⟨db, rfl⟩

/-- C4: agent evaluation never propagates a handler failure — for every rule
list, note, database and every outcome of the handlers' external effects
(file writes, Gemini calls), `run_agents` completes normally and attempts
exactly the actions of the rules whose triggers are satisfied, so one
failing action prevents neither the remaining rules nor the caller from
completing. -/
theorem c4_handler_isolation (eff : Effects) (note : Int × Note) (db : DB)
    (rules : List AgentRule) :
    ∃ out, run_agents eff note db rules = Except.ok out
      ∧ out.2 = satisfiedActions note rules := by
  induction rules generalizing db with
  | nil => exact ⟨(db, []), rfl, rfl⟩
  | cons r rest ih =>
    cases hrt : r.trigger with
    | none =>
      obtain ⟨out, hout, hfired⟩ := ih db
      refine ⟨out, ?_, ?_⟩
      · simp [run_agents, hrt, hout]
      · simp [satisfiedActions, List.filterMap_cons, hrt]
        rw [hfired]
        rfl
    | some t =>
      cases hra : r.action with
      | none =>
        obtain ⟨out, hout, hfired⟩ := ih db
        refine ⟨out, ?_, ?_⟩
        · simp [run_agents, hrt, hra, hout]
        · simp [satisfiedActions, List.filterMap_cons, hrt, hra]
          rw [hfired]
          rfl
      | some a =>
        by_cases hta : t ≠ "" ∧ a ≠ ""
        · by_cases hck : check_trigger t note.2
          · obtain ⟨db1, hdb1⟩ := perform_action_ok eff a note db
            obtain ⟨out, hout, hfired⟩ := ih db1
            refine ⟨(out.1, a :: out.2), ?_, ?_⟩
            · simp [run_agents, hrt, hra, hta, hck, hdb1, hout]
            · simp [satisfiedActions, List.filterMap_cons, hrt, hra, hta,
                hck]
              rw [hfired]
              rfl
          · obtain ⟨out, hout, hfired⟩ := ih db
            refine ⟨out, ?_, ?_⟩
            · simp [run_agents, hrt, hra, hta, hck, hout]
            · simp [satisfiedActions, List.filterMap_cons, hrt, hra, hta,
                hck]
              rw [hfired]
              rfl
        · obtain ⟨out, hout, hfired⟩ := ih db
          refine ⟨out, ?_, ?_⟩
          · simp [run_agents, hrt, hra, hta, hout]
          · simp [satisfiedActions, List.filterMap_cons, hrt, hra, hta]
            rw [hfired]
            rfl
